import Mathlib

/-!
Verification of the a2council bot (src/council_twitter_bot.py).

The Python source is shallowly embedded: Python strings become Lean
strings (lists of unicode scalar characters), Python ints become Int,
nullable values become Option, and code that can raise becomes Except.
Each definition is translated from the corresponding Python function and
keeps its name where possible.
-/

set_option autoImplicit false

namespace A2CouncilBot

instance {ε α : Type} [DecidableEq ε] [DecidableEq α] : DecidableEq (Except ε α) := by
  intro a b
  cases a <;> cases b <;> first
    | (apply isFalse; intro h; exact Except.noConfusion h)
    | (rename_i x y
       exact match decEq x y with
         | isTrue h => isTrue (by rw [h])
         | isFalse h => isFalse (by intro hh; cases hh; exact h rfl))

/-- The Python exceptions raised by the relevant code paths:
ValueError (raised by truncate), IndexError (raised by indexing an empty
split result), and RuntimeError (raised when a post is too long, and
used for publish failures of a posting client). -/
inductive PyErr where
  | valueError (msg : String)
  | indexError
  | runtimeError (msg : String)
  deriving DecidableEq

/-! ### String primitives mirroring the Python operations used -/

/-- Python len(s), as an Int (Python ints are unbounded). -/
def pyLen (s : String) : Int := s.data.length

/-- Python s[:n] for a nonnegative n. -/
def pyTake (s : String) (n : Nat) : String := ⟨s.data.take n⟩

/-- Python str.lower(), character by character. -/
def pyLower (s : String) : String := ⟨s.data.map Char.toLower⟩

/-- The whitespace characters recognized by Python str.split(). -/
def pyIsSpace (c : Char) : Bool :=
  c = ' ' || c = '\t' || c = '\n' || c = '\r' || c = '\x0b' || c = '\x0c'

/-- Worker for pyWords: split a character list on runs of whitespace. -/
def wordsAux : List Char → List Char → List (List Char)
  | [], [] => []
  | [], acc => [acc.reverse]
  | c :: cs, acc =>
    if pyIsSpace c then
      match acc with
      | [] => wordsAux cs []
      | _ :: _ => acc.reverse :: wordsAux cs []
    else wordsAux cs (c :: acc)

/-- Python s.split() with no argument: runs of whitespace separate words,
and no empty strings are produced. -/
def pyWords (s : String) : List String := (wordsAux s.data []).map String.mk

/-- Python s.split()[-1]: the last whitespace-delimited word, raising
IndexError when the split result is empty. -/
def last_word (s : String) : Except PyErr String :=
  match (pyWords s).getLast? with
  | some w => .ok w
  | none => .error .indexError

/-- Python "{}".format(x) for an Optional[str] x: None prints as "None". -/
def py_format_opt : Option String → String
  | none => "None"
  | some s => s

theorem data_append (s t : String) : (s ++ t).data = s.data ++ t.data := by
  cases s; cases t; rfl

theorem pyLen_append (s t : String) : pyLen (s ++ t) = pyLen s + pyLen t := by
  simp [pyLen, data_append]

theorem pyLen_nonneg (s : String) : 0 ≤ pyLen s := by
  simp [pyLen]

/-! ### truncate (council_twitter_bot.py lines 22-32) -/

/-- def truncate(text, length): raise ValueError on negative length;
if len(text) > length: return length dots when length < 3, else
text[: length - 3] + "..."; otherwise return text unchanged. -/
def truncate (text : String) (length : Int) : Except PyErr String :=
  if length < 0 then .error (.valueError "bad length")
  else if pyLen text > length then
    if length < 3 then .ok ⟨List.replicate length.toNat '.'⟩
    else .ok (pyTake text (length - 3).toNat ++ "...")
  else .ok text

/-- For a nonnegative requested length, truncate never raises and the
result has exactly min (len text) length characters. -/
theorem truncate_ok (text : String) (length : Int) (h : 0 ≤ length) :
    ∃ s, truncate text length = .ok s ∧
      pyLen s = min (pyLen text) length := by
  unfold truncate
  rw [if_neg (by omega)]
  by_cases hlen : pyLen text > length
  · rw [if_pos hlen]
    by_cases h3 : length < 3
    · refine ⟨_, by rw [if_pos h3], ?_⟩
      simp only [pyLen, String.data] at *
      simp only [List.length_replicate]
      omega
    · refine ⟨_, by rw [if_neg h3], ?_⟩
      rw [pyLen_append]
      have hdots : pyLen "..." = 3 := rfl
      rw [hdots]
      simp only [pyLen, pyTake, String.data] at *
      simp only [List.length_take]
      have h3' : ¬ (length < 3) := h3
      omega
  · rw [if_neg hlen]
    exact ⟨text, rfl, by omega⟩

/-- A string no longer than the requested length is returned unchanged. -/
theorem truncate_eq_of_le (t : String) (n : Int) (h : pyLen t ≤ n) :
    truncate t n = .ok t := by
  have h0 := pyLen_nonneg t
  unfold truncate
  rw [if_neg (by omega), if_neg (by omega)]

/-- C7: truncate(text, n) fails with a ValueError for every n < 0;
returns text unchanged whenever len(text) ≤ n; otherwise returns n
repeated "." characters when n < 3, else the first n - 3 characters
followed by "..."; and truncate("hello world", 2) = "..",
truncate("hello world", 8) = "hello...", truncate("hi", 10) = "hi". -/
theorem c7_truncate_spec :
    (∀ (t : String) (n : Int), n < 0 →
        truncate t n = .error (.valueError "bad length"))
    ∧ (∀ (t : String) (n : Int), pyLen t ≤ n → truncate t n = .ok t)
    ∧ (∀ (t : String) (n : Int), 0 ≤ n → n < 3 → pyLen t > n →
        truncate t n = .ok ⟨List.replicate n.toNat '.'⟩)
    ∧ (∀ (t : String) (n : Int), 3 ≤ n → pyLen t > n →
        truncate t n = .ok (pyTake t (n - 3).toNat ++ "..."))
    ∧ truncate "hello world" 2 = .ok ".."
    ∧ truncate "hello world" 8 = .ok "hello..."
    ∧ truncate "hi" 10 = .ok "hi" := by
  refine ⟨?_, ?_, ?_, ?_, by decide, by decide, by decide⟩
  · intro t n h
    unfold truncate
    rw [if_pos h]
  · intro t n h
    exact truncate_eq_of_le t n h
  · intro t n h0 h3 hlen
    unfold truncate
    rw [if_neg (by omega), if_pos hlen, if_pos h3]
  · intro t n h3 hlen
    unfold truncate
    rw [if_neg (by omega), if_pos hlen, if_neg (by omega)]

/-- Witness for C7 at concrete inputs. -/
theorem c7_truncate_spec_witness :
    truncate "abc" (-1) = .error (.valueError "bad length")
    ∧ truncate "abc" 5 = .ok "abc"
    ∧ truncate "abcde" 1 = .ok ⟨List.replicate (1 : Int).toNat '.'⟩
    ∧ truncate "abcde" 4 = .ok (pyTake "abcde" ((4 : Int) - 3).toNat ++ "...") :=
  ⟨c7_truncate_spec.1 "abc" (-1) (by decide),
   c7_truncate_spec.2.1 "abc" 5 (by decide),
   c7_truncate_spec.2.2.1 "abcde" 1 (by decide) (by decide) (by decide),
   c7_truncate_spec.2.2.2.1 "abcde" 4 (by decide) (by decide)⟩

/-- C8: truncate is idempotent for every nonnegative length:
truncating an already-truncated string with the same length returns it
unchanged. -/
theorem c8_truncate_idempotent (t : String) (n : Int) (h : 0 ≤ n) :
    (truncate t n).bind (fun r => truncate r n) = truncate t n := by
  obtain ⟨s, hs, hlen⟩ := truncate_ok t n h
  rw [hs]
  simp only [Except.bind]
  have h0 := pyLen_nonneg t
  have hsn : pyLen s ≤ n := by omega
  rw [truncate_eq_of_le s n hsn]

/-- Witness for C8 at a concrete input. -/
theorem c8_truncate_idempotent_witness :
    (truncate "hello" 3).bind (fun r => truncate r 3) = truncate "hello" 3 :=
  c8_truncate_idempotent "hello" 3 (by decide)

/-! ### SocialMediaPost (council_twitter_bot.py lines 35-107) -/

/-- The three component type constants of SocialMediaPost. -/
inductive ComponentType where
  | text
  | url
  | hashtag
  deriving DecidableEq

/-- class SocialMediaPostComponent: a typed component with its text and
a truncatability flag. -/
structure SocialMediaPostComponent where
  component_type : ComponentType
  text : String
  truncate : Bool
  deriving DecidableEq

/-- class SocialMediaPost: an ordered list of components. -/
structure SocialMediaPost where
  components : List SocialMediaPostComponent
  deriving DecidableEq

def add_text (p : SocialMediaPost) (text : String) (trunc : Bool) : SocialMediaPost :=
  ⟨p.components ++ [⟨ComponentType.text, text, trunc⟩]⟩

def add_url (p : SocialMediaPost) (text : String) : SocialMediaPost :=
  ⟨p.components ++ [⟨ComponentType.url, text, false⟩]⟩

def add_hashtag (p : SocialMediaPost) (text : String) : SocialMediaPost :=
  ⟨p.components ++ [⟨ComponentType.hashtag, text, false⟩]⟩

/-- The loop body of get_post_length: URL components count url_length,
every other component counts its literal character length. -/
def components_length (url_length : Int) : List SocialMediaPostComponent → Int
  | [] => 0
  | c :: cs =>
    (if c.component_type = ComponentType.url then url_length else pyLen c.text)
      + components_length url_length cs

/-- def get_post_length(self, url_length). -/
def get_post_length (p : SocialMediaPost) (url_length : Int) : Int :=
  components_length url_length p.components

/-- The type of the url and hashtag callbacks: they receive the text
emitted so far and the raw component text, and return the text to emit. -/
abbrev Callback := String → String → String

/-- The default callbacks of get_plaintext_post return the raw text. -/
def default_callback : Callback := fun _ t => t

/-- The floored-at-zero target length computed inside
get_plaintext_post for a truncatable component that is over budget. -/
def shrink_target (component_length overflow : Int) : Int :=
  if component_length - overflow < 0 then 0 else component_length - overflow

theorem shrink_target_nonneg (cl ov : Int) : 0 ≤ shrink_target cl ov := by
  unfold shrink_target; split <;> omega

theorem shrink_target_le (cl ov : Int) (h0 : 0 ≤ cl) (h1 : 0 ≤ ov) :
    shrink_target cl ov ≤ cl := by
  unfold shrink_target; split <;> omega

/-- The main loop of get_plaintext_post. It threads the list of pieces
emitted so far (the Python code concatenates them into post_text as it
goes) and the running proposed length. A truncatable Text component
reached while the proposed length exceeds the budget is shrunk by the
current overflow, floored at zero; Url and Hashtag components are
emitted through their callbacks. -/
def render_loop (max_post_length : Int) (ucb hcb : Callback) :
    List SocialMediaPostComponent → List String → Int → Except PyErr (List String × Int)
  | [], pieces, proposed => .ok (pieces, proposed)
  | c :: cs, pieces, proposed =>
    match c.component_type with
    | ComponentType.text =>
      if c.truncate = true ∧ proposed > max_post_length then
        match truncate c.text (shrink_target (pyLen c.text) (proposed - max_post_length)) with
        | .error e => .error e
        | .ok piece =>
          render_loop max_post_length ucb hcb cs (pieces ++ [piece])
            (proposed - (pyLen c.text
              - shrink_target (pyLen c.text) (proposed - max_post_length)))
      else render_loop max_post_length ucb hcb cs (pieces ++ [c.text]) proposed
    | ComponentType.url =>
      render_loop max_post_length ucb hcb cs
        (pieces ++ [ucb (String.join pieces) c.text]) proposed
    | ComponentType.hashtag =>
      render_loop max_post_length ucb hcb cs
        (pieces ++ [hcb (String.join pieces) c.text]) proposed

/-- def get_plaintext_post(self, url_length, max_post_length,
url_callback, hashtag_callback): compute the proposed length, run the
component loop, and raise RuntimeError("Post is too long!") when the
final proposed length still exceeds max_post_length. -/
def get_plaintext_post (p : SocialMediaPost) (url_length max_post_length : Int)
    (url_callback hashtag_callback : Callback) : Except PyErr String :=
  match render_loop max_post_length url_callback hashtag_callback
      p.components [] (get_post_length p url_length) with
  | .error e => .error e
  | .ok (pieces, proposed) =>
    if proposed > max_post_length then .error (.runtimeError "Post is too long!")
    else .ok (String.join pieces)

/-- The rendered length of an emission, per destination profile: a URL
component counts as exactly url_length, every other component counts
the characters actually emitted for it. -/
def rendered_length (url_length : Int) :
    List SocialMediaPostComponent → List String → Int
  | c :: cs, piece :: ps =>
    (if c.component_type = ComponentType.url then url_length else pyLen piece)
      + rendered_length url_length cs ps
  | _, _ => 0

/-- The render loop never raises, emits exactly one piece per component,
and its final proposed length accounts the emission exactly: URL
components at url_length and all others at their emitted length
(provided the hashtag callback preserves length, as all in the source do). -/
theorem render_loop_spec (u m : Int) (ucb hcb : Callback)
    (hh : ∀ pre t, pyLen (hcb pre t) = pyLen t) :
    ∀ (cs : List SocialMediaPostComponent) (pieces : List String) (proposed : Int),
    ∃ (new : List String) (proposed' : Int),
      render_loop m ucb hcb cs pieces proposed = .ok (pieces ++ new, proposed')
      ∧ new.length = cs.length
      ∧ proposed' + components_length u cs = proposed + rendered_length u cs new := by
  intro cs
  induction cs with
  | nil =>
    intro pieces proposed
    exact ⟨[], proposed, by simp [render_loop], rfl, by simp [components_length, rendered_length]⟩
  | cons c cs ih =>
    intro pieces proposed
    match hc : c.component_type with
    | ComponentType.text =>
      by_cases hsh : c.truncate = true ∧ proposed > m
      · -- shrink branch
        obtain ⟨piece, hpiece, hplen⟩ :=
          truncate_ok c.text (shrink_target (pyLen c.text) (proposed - m))
            (shrink_target_nonneg _ _)
        obtain ⟨new, p', hrl, hlen, hacc⟩ :=
          ih (pieces ++ [piece])
            (proposed - (pyLen c.text - shrink_target (pyLen c.text) (proposed - m)))
        refine ⟨piece :: new, p', ?_, by simp [hlen], ?_⟩
        · rw [show pieces ++ piece :: new = (pieces ++ [piece]) ++ new by simp]
          rw [← hrl]
          simp only [render_loop, hc, if_pos hsh, hpiece]
        · have hst := shrink_target_le (pyLen c.text) (proposed - m)
            (pyLen_nonneg _) (by omega)
          have hst0 := shrink_target_nonneg (pyLen c.text) (proposed - m)
          have hmin : pyLen piece = shrink_target (pyLen c.text) (proposed - m) := by
            rw [hplen]; omega
          simp [components_length, rendered_length, hc]
          omega
      · -- unmodified branch
        obtain ⟨new, p', hrl, hlen, hacc⟩ := ih (pieces ++ [c.text]) proposed
        refine ⟨c.text :: new, p', ?_, by simp [hlen], ?_⟩
        · rw [show pieces ++ c.text :: new = (pieces ++ [c.text]) ++ new by simp]
          rw [← hrl]
          simp only [render_loop, hc, if_neg hsh]
        · simp [components_length, rendered_length, hc]
          omega
    | ComponentType.url =>
      obtain ⟨new, p', hrl, hlen, hacc⟩ :=
        ih (pieces ++ [ucb (String.join pieces) c.text]) proposed
      refine ⟨ucb (String.join pieces) c.text :: new, p', ?_, by simp [hlen], ?_⟩
      · rw [show pieces ++ ucb (String.join pieces) c.text :: new
            = (pieces ++ [ucb (String.join pieces) c.text]) ++ new by simp]
        rw [← hrl]
        simp only [render_loop, hc]
      · simp [components_length, rendered_length, hc]
        omega
    | ComponentType.hashtag =>
      obtain ⟨new, p', hrl, hlen, hacc⟩ :=
        ih (pieces ++ [hcb (String.join pieces) c.text]) proposed
      refine ⟨hcb (String.join pieces) c.text :: new, p', ?_, by simp [hlen], ?_⟩
      · rw [show pieces ++ hcb (String.join pieces) c.text :: new
            = (pieces ++ [hcb (String.join pieces) c.text]) ++ new by simp]
        rw [← hrl]
        simp only [render_loop, hc]
      · simp [components_length, rendered_length, hc, hh]
        omega

/-- C1: for every composed post and destination profile, render either
returns a string whose rendered length (URL components counted as
exactly url_length, all other components at their emitted character
length) is at most max_post_length, or fails with the
RuntimeError("Post is too long!") constraint violation; a successful
render never exceeds the budget in rendered length, and content is
never silently dropped: the output is the concatenation of exactly one
emitted piece per component. Hashtag callbacks are assumed
length-preserving, which all callbacks in the source are. -/
theorem c1_render_length_bound (p : SocialMediaPost) (u m : Int) (ucb hcb : Callback)
    (hh : ∀ pre t, pyLen (hcb pre t) = pyLen t) :
    (∀ e, get_plaintext_post p u m ucb hcb = .error e →
        e = PyErr.runtimeError "Post is too long!")
    ∧ (∀ s, get_plaintext_post p u m ucb hcb = .ok s →
        ∃ pieces, s = String.join pieces
          ∧ pieces.length = p.components.length
          ∧ rendered_length u p.components pieces ≤ m) := by
  obtain ⟨new, p', hrl, hlen, hacc⟩ :=
    render_loop_spec u m ucb hcb hh p.components [] (get_post_length p u)
  have hacc' : p' = rendered_length u p.components new := by
    unfold get_post_length at hacc
    omega
  constructor
  · intro e he
    unfold get_plaintext_post at he
    rw [hrl] at he
    simp only [List.nil_append] at he
    by_cases hgt : p' > m
    · rw [if_pos hgt] at he
      injection he with h
      exact h.symm
    · rw [if_neg hgt] at he
      exact absurd he (by intro h; exact Except.noConfusion h)
  · intro s hs
    unfold get_plaintext_post at hs
    rw [hrl] at hs
    simp only [List.nil_append] at hs
    by_cases hgt : p' > m
    · rw [if_pos hgt] at hs
      exact absurd hs (by intro h; exact Except.noConfusion h)
    · rw [if_neg hgt] at hs
      refine ⟨new, ?_, hlen, by omega⟩
      injection hs with h
      exact h.symm

/-- Witness for C1 at a concrete post. -/
theorem c1_render_length_bound_witness :
    get_plaintext_post ⟨[⟨ComponentType.text, "hi", false⟩]⟩ 5 10
      default_callback default_callback = .ok "hi"
    ∧ ∃ pieces, ("hi" : String) = String.join pieces
        ∧ pieces.length = 1
        ∧ rendered_length 5 [⟨ComponentType.text, "hi", false⟩] pieces ≤ 10 :=
  ⟨by decide,
   (c1_render_length_bound ⟨[⟨ComponentType.text, "hi", false⟩]⟩ 5 10
      default_callback default_callback (fun _ _ => rfl)).2 "hi" (by decide)⟩

/-- Once the running proposed length is within the budget, the render
loop leaves it unchanged and emits every remaining Text component
unmodified (and never raises). -/
theorem render_loop_within_budget (m : Int) (ucb hcb : Callback) :
    ∀ (cs : List SocialMediaPostComponent) (pieces : List String) (proposed : Int),
    proposed ≤ m →
    ∃ new, render_loop m ucb hcb cs pieces proposed = .ok (pieces ++ new, proposed)
      ∧ List.Forall₂ (fun (c : SocialMediaPostComponent) (piece : String) =>
          c.component_type = ComponentType.text → piece = c.text) cs new := by
  intro cs
  induction cs with
  | nil =>
    intro pieces proposed _
    exact ⟨[], by simp [render_loop], List.Forall₂.nil⟩
  | cons c cs ih =>
    intro pieces proposed hle
    match hc : c.component_type with
    | ComponentType.text =>
      obtain ⟨new, hrl, hfa⟩ := ih (pieces ++ [c.text]) proposed hle
      refine ⟨c.text :: new, ?_, List.Forall₂.cons (fun _ => rfl) hfa⟩
      rw [show pieces ++ c.text :: new = (pieces ++ [c.text]) ++ new by simp]
      rw [← hrl]
      simp only [render_loop, hc, if_neg (by omega : ¬ (c.truncate = true ∧ proposed > m))]
    | ComponentType.url =>
      obtain ⟨new, hrl, hfa⟩ := ih (pieces ++ [ucb (String.join pieces) c.text]) proposed hle
      refine ⟨ucb (String.join pieces) c.text :: new, ?_,
        List.Forall₂.cons (fun h => (by rw [hc] at h; exact ComponentType.noConfusion h)) hfa⟩
      rw [show pieces ++ ucb (String.join pieces) c.text :: new
          = (pieces ++ [ucb (String.join pieces) c.text]) ++ new by simp]
      rw [← hrl]
      simp only [render_loop, hc]
    | ComponentType.hashtag =>
      obtain ⟨new, hrl, hfa⟩ := ih (pieces ++ [hcb (String.join pieces) c.text]) proposed hle
      refine ⟨hcb (String.join pieces) c.text :: new, ?_,
        List.Forall₂.cons (fun h => (by rw [hc] at h; exact ComponentType.noConfusion h)) hfa⟩
      rw [show pieces ++ hcb (String.join pieces) c.text :: new
          = (pieces ++ [hcb (String.join pieces) c.text]) ++ new by simp]
      rw [← hrl]
      simp only [render_loop, hc]

/-- The two-truncatable-component post used to refute C2. -/
def c2_post : SocialMediaPost :=
  ⟨[⟨ComponentType.text, "aaaaa", true⟩, ⟨ComponentType.text, "bbbbb", true⟩]⟩

/-- C2 counterexample: with url weight 0 and budget 3, the post made of
the truncatable Text components "aaaaa" and "bbbbb" has proposed length
10; the first shrink floors at zero (emitting ""), which leaves the
total at 5, still over budget, so the SECOND truncatable component is
also shrunk: the render returns "..." instead of emitting "bbbbb"
unmodified, and it succeeds instead of still exceeding the budget. -/
theorem c2_counterexample :
    get_plaintext_post c2_post 0 3 default_callback default_callback = .ok "..."
    ∧ ("..." : String) ≠ "" ++ "bbbbb" := by
  refine ⟨by decide, by decide⟩

/-- C2 amended: a truncatable Text component is shrunk whenever the
running proposed total still exceeds max_post_length when that
component is reached, so later truncatable components can also be
shrunk when an earlier shrink (floored at zero) left the total over
budget. Once the running total is within the budget it never changes
again and every remaining component is emitted unmodified; and when
the first over-budget truncatable component is long enough to absorb
the whole overflow, it alone is shrunk (to its length minus the
overflow), the total becomes exactly max_post_length, everything after
it is emitted unmodified, and the render succeeds. -/
theorem c2_amended_shrink (u m : Int) (ucb hcb : Callback) :
    (∀ (cs : List SocialMediaPostComponent) (pieces : List String) (proposed : Int),
        proposed ≤ m →
        ∃ new, render_loop m ucb hcb cs pieces proposed = .ok (pieces ++ new, proposed)
          ∧ List.Forall₂ (fun (c : SocialMediaPostComponent) (piece : String) =>
              c.component_type = ComponentType.text → piece = c.text) cs new)
    ∧ (∀ (t : String) (rest : List SocialMediaPostComponent) (proposed : Int),
        proposed > m → proposed - m ≤ pyLen t →
        ∃ piece new,
          render_loop m ucb hcb (⟨ComponentType.text, t, true⟩ :: rest) [] proposed
            = .ok (piece :: new, m)
          ∧ truncate t (pyLen t - (proposed - m)) = .ok piece
          ∧ List.Forall₂ (fun (c : SocialMediaPostComponent) (piece2 : String) =>
              c.component_type = ComponentType.text → piece2 = c.text) rest new)
    ∧ (∀ (t : String) (rest : List SocialMediaPostComponent),
        get_post_length ⟨⟨ComponentType.text, t, true⟩ :: rest⟩ u > m →
        get_post_length ⟨⟨ComponentType.text, t, true⟩ :: rest⟩ u - m ≤ pyLen t →
        ∃ s, get_plaintext_post ⟨⟨ComponentType.text, t, true⟩ :: rest⟩ u m ucb hcb
          = .ok s) := by
  have key : ∀ (t : String) (rest : List SocialMediaPostComponent) (proposed : Int),
      proposed > m → proposed - m ≤ pyLen t →
      ∃ piece new,
        render_loop m ucb hcb (⟨ComponentType.text, t, true⟩ :: rest) [] proposed
          = .ok (piece :: new, m)
        ∧ truncate t (pyLen t - (proposed - m)) = .ok piece
        ∧ List.Forall₂ (fun (c : SocialMediaPostComponent) (piece2 : String) =>
            c.component_type = ComponentType.text → piece2 = c.text) rest new := by
    intro t rest proposed hgt hab
    have hst : shrink_target (pyLen t) (proposed - m) = pyLen t - (proposed - m) := by
      unfold shrink_target
      rw [if_neg (by omega)]
    obtain ⟨piece, hpiece, _⟩ :=
      truncate_ok t (shrink_target (pyLen t) (proposed - m)) (shrink_target_nonneg _ _)
    obtain ⟨new, hrl, hfa⟩ :=
      render_loop_within_budget m ucb hcb rest [piece]
        (proposed - (pyLen t - shrink_target (pyLen t) (proposed - m)))
        (by rw [hst]; omega)
    refine ⟨piece, new, ?_, by rw [← hst]; exact hpiece, hfa⟩
    have hm : proposed - (pyLen t - shrink_target (pyLen t) (proposed - m)) = m := by
      rw [hst]; omega
    simp only [render_loop, hpiece]
    split
    · rw [hm]
      rw [hm] at hrl
      simpa using hrl
    · rename_i h
      simp at h
      omega
  refine ⟨render_loop_within_budget m ucb hcb, key, ?_⟩
  intro t rest h1 h2
  obtain ⟨piece, new, hrl, _, _⟩ :=
    key t rest (get_post_length ⟨⟨ComponentType.text, t, true⟩ :: rest⟩ u) h1 h2
  refine ⟨String.join (piece :: new), ?_⟩
  unfold get_plaintext_post
  simp only [hrl]
  rw [if_neg (by omega)]

/-- Witness for C2 amended at a concrete post: one truncatable
component of length 6, budget 3, overflow 3 absorbed by that component. -/
theorem c2_amended_shrink_witness :
    ∃ s, get_plaintext_post ⟨[⟨ComponentType.text, "abcdef", true⟩]⟩ 0 3
      default_callback default_callback = .ok s :=
  (c2_amended_shrink 0 3 default_callback default_callback).2.2 "abcdef" []
    (by decide) (by decide)

/-! ### Event items and process_event_item (lines 552-648) -/

/-- One record of EventItemVoteInfo: the vote value label (nullable)
and the voter name. -/
structure VoteInfo where
  VoteValueName : Option String
  VotePersonName : String
  deriving DecidableEq

/-- The fields of a Legistar event item used by the bot. Nullable
fields are Options; EventItemPassedFlag is the nullable integer
decision state. -/
structure EventItem where
  EventItemGuid : String
  EventItemAgendaNumber : Option String
  EventItemTitle : String
  EventItemActionName : Option String
  EventItemPassedFlag : Option Int
  EventItemPassedFlagName : Option String
  EventItemMatterId : Option Int
  EventItemMatterFile : Option String
  EventItemInSiteURL : Option String
  EventItemMover : Option String
  EventItemVoteInfo : List VoteInfo
  deriving DecidableEq

/-- ACTION_TENSE_MAP (lines 552-565): the duplicate "Postponed" entry of
the Python dict literal collapses to one. -/
def ACTION_TENSE_MAP : List (String × String) :=
  [("Accepted", "Accept"), ("Adjourn", "Adjourn"), ("Adopted", "Adopt"),
   ("Amended", "Amend"), ("Approved", "Approve"), ("Deleted", "Delete"),
   ("Postponed", "Postpone"), ("Presented", "Present"),
   ("Reconsidered", "Reconsider"), ("Referred", "Refer"),
   ("Withdrawn", "Withdraw")]

/-- def fixup_action_tense(action_name): a falsy action name (None or
the empty string) is returned unchanged; otherwise the name is split
into words, the first word is replaced through ACTION_TENSE_MAP, and
the words are joined with single spaces. Splitting a nonempty
whitespace-only name yields no words, so parts[0] raises IndexError. -/
def fixup_action_tense : Option String → Except PyErr (Option String)
  | none => .ok none
  | some s =>
    if s = "" then .ok (some s)
    else
      match pyWords s with
      | [] => .error .indexError
      | w :: ws => .ok (some (String.intercalate " " (((ACTION_TENSE_MAP.lookup w).getD w) :: ws)))

/-- Python string comparison (code point lexicographic), used to model
sorted(). -/
def lexLe : List Char → List Char → Bool
  | [], _ => true
  | _ :: _, [] => false
  | a :: as, b :: bs =>
    if a < b then true
    else if b < a then false
    else lexLe as bs

/-- Insert a string into an already sorted list (model of sorted()). -/
def insertStr (x : String) : List String → List String
  | [] => [x]
  | y :: ys => if lexLe x.data y.data then x :: y :: ys else y :: insertStr x ys

/-- Python sorted() on strings: ascending code point order. -/
def sortStrs (l : List String) : List String := l.foldr insertStr []

/-- Python set.add on the list representation of a set: names are kept
once, in first-insertion order (rendering later sorts them, so only the
membership matters). -/
def setAdd (l : List String) (x : String) : List String :=
  if x ∈ l then l else l ++ [x]

/-- votes.setdefault(value, set()).add(lastname): update the entry for
an existing key in place, or append a new key at the end (Python dicts
preserve insertion order). -/
def dictAddName : List (String × List String) → String → String → List (String × List String)
  | [], v, n => [(v, [n])]
  | (k, ns) :: rest, v, n =>
    if k = v then (k, setAdd ns n) :: rest
    else (k, ns) :: dictAddName rest v n

/-- The vote-collection loop of process_event_item (lines 630-635):
skip records with a null VoteValueName, compute each voter's last name
with split()[-1] (raising IndexError for a wordless name), and group
the last names by vote value. -/
def collect_votes : List VoteInfo → List (String × List String) → Except PyErr (List (String × List String))
  | [], votes => .ok votes
  | vi :: rest, votes =>
    match vi.VoteValueName with
    | none => collect_votes rest votes
    | some v =>
      match last_word vi.VotePersonName with
      | .error e => .error e
      | .ok lastname => collect_votes rest (dictAddName votes v lastname)

/-- The vote block of the composed post (lines 630-641): one line per
vote value in sorted order, each listing the sorted last names, or the
single line "Voice vote" when neither "Yea" nor "Nay" occurs. -/
def vote_block (voteInfo : List VoteInfo) : Except PyErr String :=
  match collect_votes voteInfo [] with
  | .error e => .error e
  | .ok votes =>
    if votes.any (fun kv => kv.1 = "Nay") || votes.any (fun kv => kv.1 = "Yea") then
      .ok (String.join ((sortStrs (votes.map (fun kv => kv.1))).map
        (fun v => v ++ ": " ++
          String.intercalate ", " (sortStrs ((votes.lookup v).getD [])) ++ "\n")))
    else .ok "Voice vote\n"

/-- Python re.match(r"^(MC|CC|B|C|D).*$", s) is not None: s starts with
one of the five alternatives, and after the alternative the dot (which
never matches a newline) and the dollar (end of string, or just before
a final newline) allow any characters with no newline except possibly
one trailing newline. -/
def dotstar_end (r : List Char) : Bool :=
  r.all (fun c => c != '\n')
    || (r.getLast? = some '\n' && r.dropLast.all (fun c => c != '\n'))

def matches_agenda_regex (s : String) : Bool :=
  ["MC", "CC", "B", "C", "D"].any
    (fun pre => pre.data.isPrefixOf s.data && dotstar_end (s.data.drop pre.data.length))

/-- Python truthiness of an Optional[str]: None and "" are falsy. -/
def opt_str_falsy : Option String → Bool
  | none => true
  | some s => s = ""

/-- The firing condition of process_event_item (lines 598-606):
a decision exists, the previously known copy (if any) had none, the
agenda number is falsy or matches the prefix regex, and the title is
not the consent-agenda placeholder. -/
def event_item_fires (ei : EventItem) (previous_ei : Option EventItem) : Bool :=
  ei.EventItemPassedFlag.isSome
    && (match previous_ei with
        | none => true
        | some p => p.EventItemPassedFlag.isNone)
    && (opt_str_falsy ei.EventItemAgendaNumber
        || matches_agenda_regex (ei.EventItemAgendaNumber.getD ""))
    && (pyLower ei.EventItemTitle != "passed on consent agenda")

/-- The mover fragment of the action line:
ei["EventItemMover"].split()[-1] if ei["EventItemMover"] else None. -/
def mover_last : Option String → Except PyErr (Option String)
  | none => .ok none
  | some s =>
    if s = "" then .ok none
    else
      match last_word s with
      | .error e => .error e
      | .ok w => .ok (some w)

/-- def process_event_item(ei, previous_ei) (lines 597-648): when the
firing condition holds, build the post (agenda prefix when the agenda
number is present, truncatable title, optional newline + URL, the
action/result/vote suffix, the trailing hashtag); otherwise return
None. Raises propagate from the suffix construction. -/
def process_event_item (ei : EventItem) (previous_ei : Option EventItem) :
    Except PyErr (Option SocialMediaPost) :=
  if event_item_fires ei previous_ei then
    let post0 : SocialMediaPost := ⟨[]⟩
    let post1 := match ei.EventItemAgendaNumber with
      | some a => add_text post0 (a ++ ": ") false
      | none => post0
    let post2 := add_text post1 ei.EventItemTitle true
    let post3 := match ei.EventItemInSiteURL with
      | some legistar_url =>
        if legistar_url = "" then post2
        else add_url (add_text post2 "\n" false) legistar_url
      | none => post2
    match fixup_action_tense ei.EventItemActionName with
    | .error e => .error e
    | .ok action_name =>
      match mover_last ei.EventItemMover with
      | .error e => .error e
      | .ok mover =>
        match vote_block ei.EventItemVoteInfo with
        | .error e => .error e
        | .ok votes =>
          let suffix := "\nAction: " ++ py_format_opt action_name
            ++ " (" ++ py_format_opt mover ++ ")\n"
            ++ "Result: " ++ py_format_opt ei.EventItemPassedFlagName ++ "\n\n"
            ++ votes
          .ok (some (add_hashtag (add_text post3 suffix false) "#a2council"))
  else .ok none

/-- C3: once a Guid is recorded as known with a non-null decision
state, process_event_item never fires for it again: whenever the
previously known copy has a non-null EventItemPassedFlag, the result is
None, so a second call with the same unchanged previous value can never
produce a second announcement. -/
theorem c3_no_second_announcement (ei previous : EventItem)
    (h : previous.EventItemPassedFlag ≠ none) :
    process_event_item ei (some previous) = .ok none := by
  have hfalse : event_item_fires ei (some previous) = false := by
    unfold event_item_fires
    have : previous.EventItemPassedFlag.isNone = false := by
      cases hp : previous.EventItemPassedFlag with
      | none => exact absurd hp h
      | some v => rfl
    simp [this]
  unfold process_event_item
  rw [hfalse]
  simp

/-- Witness for C3 at concrete items. -/
theorem c3_no_second_announcement_witness :
    process_event_item
      ⟨"g1", some "B-1", "A title", some "Approved", some 1, some "Pass",
        some 5, none, none, some "Jane Doe", []⟩
      (some ⟨"g1", some "B-1", "A title", some "Approved", some 1, some "Pass",
        some 5, none, none, some "Jane Doe", []⟩) = .ok none :=
  c3_no_second_announcement _ _ (by decide)

/-- Adding a name under key v preserves any property that holds for all
existing keys and for v. -/
theorem dictAddName_key_prop (P : String → Prop) :
    ∀ (votes : List (String × List String)) (v n : String),
    (∀ kv ∈ votes, P kv.1) → P v →
    ∀ kv ∈ dictAddName votes v n, P kv.1 := by
  intro votes
  induction votes with
  | nil =>
    intro v n _ hv kv hkv
    simp only [dictAddName, List.mem_singleton] at hkv
    rw [hkv]
    exact hv
  | cons head rest ih =>
    intro v n hall hv kv hkv
    obtain ⟨k, ns⟩ := head
    simp only [dictAddName] at hkv
    by_cases hk : k = v
    · rw [if_pos hk] at hkv
      rcases List.mem_cons.mp hkv with h | h
      · rw [h]
        exact hall (k, ns) (List.mem_cons_self _ _)
      · exact hall kv (List.mem_cons_of_mem _ h)
    · rw [if_neg hk] at hkv
      rcases List.mem_cons.mp hkv with h | h
      · rw [h]
        exact hall (k, ns) (List.mem_cons_self _ _)
      · exact ih v n (fun kv2 hkv2 => hall kv2 (List.mem_cons_of_mem _ hkv2)) hv kv h

/-- When every vote record with a non-null value avoids the labels
"Yea" and "Nay" and has a voter name containing a word, the collection
loop succeeds and no collected key is "Yea" or "Nay". -/
theorem collect_votes_no_yea_nay :
    ∀ (vis : List VoteInfo) (votes : List (String × List String)),
    (∀ vi ∈ vis, ∀ v, vi.VoteValueName = some v →
      v ≠ "Yea" ∧ v ≠ "Nay" ∧ pyWords vi.VotePersonName ≠ []) →
    (∀ kv ∈ votes, kv.1 ≠ "Yea" ∧ kv.1 ≠ "Nay") →
    ∃ votes2, collect_votes vis votes = .ok votes2
      ∧ ∀ kv ∈ votes2, kv.1 ≠ "Yea" ∧ kv.1 ≠ "Nay" := by
  intro vis
  induction vis with
  | nil =>
    intro votes _ hv
    exact ⟨votes, rfl, hv⟩
  | cons vi rest ih =>
    intro votes hall hv
    cases hval : vi.VoteValueName with
    | none =>
      obtain ⟨votes2, hc, hp⟩ :=
        ih votes (fun x hx => hall x (List.mem_cons_of_mem _ hx)) hv
      exact ⟨votes2, by simpa [collect_votes, hval] using hc, hp⟩
    | some v =>
      obtain ⟨hv1, hv2, hw⟩ := hall vi (List.mem_cons_self _ _) v hval
      have hsome : (pyWords vi.VotePersonName).getLast?.isSome :=
        List.getLast?_isSome.mpr hw
      obtain ⟨w, hwd⟩ := Option.isSome_iff_exists.mp hsome
      obtain ⟨votes2, hc, hp⟩ :=
        ih (dictAddName votes v w)
          (fun x hx => hall x (List.mem_cons_of_mem _ hx))
          (dictAddName_key_prop (fun k => k ≠ "Yea" ∧ k ≠ "Nay") votes v w hv ⟨hv1, hv2⟩)
      refine ⟨votes2, ?_, hp⟩
      simp only [collect_votes, hval, last_word, hwd]
      exact hc

/-- C9: in the vote block, records are grouped by value label (null
values skipped), each group rendered as one line "Value: last names
sorted, comma-joined" with the groups sorted by label; the concrete
votes [("Jane Doe", "Yea"), ("John Smith", "Nay")] render as
"Nay: Smith" then "Yea: Doe"; and whenever neither "Yea" nor "Nay"
occurs among the (non-null) value labels, the single line "Voice vote"
is emitted instead. -/
theorem c9_vote_block_format :
    vote_block [⟨some "Yea", "Jane Doe"⟩, ⟨some "Nay", "John Smith"⟩]
      = .ok "Nay: Smith\nYea: Doe\n"
    ∧ (∀ (vis : List VoteInfo),
        (∀ vi ∈ vis, ∀ v, vi.VoteValueName = some v →
          v ≠ "Yea" ∧ v ≠ "Nay" ∧ pyWords vi.VotePersonName ≠ []) →
        vote_block vis = .ok "Voice vote\n") := by
  constructor
  · decide
  · intro vis hall
    obtain ⟨votes2, hc, hp⟩ :=
      collect_votes_no_yea_nay vis [] hall (by intro kv hkv; cases hkv)
    unfold vote_block
    simp only [hc]
    have hnay : votes2.any (fun kv => kv.1 = "Nay") = false := by
      rw [List.any_eq_false]
      intro kv hkv
      simpa using (hp kv hkv).2
    have hyea : votes2.any (fun kv => kv.1 = "Yea") = false := by
      rw [List.any_eq_false]
      intro kv hkv
      simpa using (hp kv hkv).1
    rw [hnay, hyea]
    simp

/-- Witness for C9 at a concrete vote list (no Yea or Nay labels). -/
theorem c9_vote_block_format_witness :
    vote_block [⟨some "Absent", "Jane Doe"⟩] = .ok "Voice vote\n" :=
  c9_vote_block_format.2 [⟨some "Absent", "Jane Doe"⟩]
    (by
      intro vi hvi v hv
      simp only [List.mem_singleton] at hvi
      subst hvi
      simp only [Option.some.injEq] at hv
      subst hv
      refine ⟨by decide, by decide, by decide⟩)

/-! ### C4: the firing condition of process_event_item -/

/-- The condition under which fixup_action_tense does not raise: the
action name is absent, empty, or contains at least one word. -/
def action_wf : Option String → Bool
  | none => true
  | some s => if s = "" then true else !(pyWords s).isEmpty

/-- The condition under which the mover fragment does not raise. -/
def mover_wf : Option String → Bool
  | none => true
  | some s => if s = "" then true else !(pyWords s).isEmpty

/-- The condition under which the vote block does not raise: every
record with a non-null value has a voter name containing a word. -/
def votes_wf (vis : List VoteInfo) : Bool :=
  vis.all (fun vi => vi.VoteValueName.isNone || !(pyWords vi.VotePersonName).isEmpty)

theorem fixup_action_tense_ok (a : Option String) (h : action_wf a = true) :
    ∃ r, fixup_action_tense a = .ok r := by
  cases a with
  | none => exact ⟨none, rfl⟩
  | some s =>
    by_cases hs : s = ""
    · exact ⟨some s, by simp [fixup_action_tense, hs]⟩
    · simp only [action_wf, if_neg hs] at h
      cases hw : pyWords s with
      | nil => rw [hw] at h; simp at h
      | cons w ws =>
        exact ⟨some (String.intercalate " " (((ACTION_TENSE_MAP.lookup w).getD w) :: ws)),
          by simp [fixup_action_tense, hs, hw]⟩

theorem mover_last_ok (a : Option String) (h : mover_wf a = true) :
    ∃ r, mover_last a = .ok r := by
  cases a with
  | none => exact ⟨none, rfl⟩
  | some s =>
    by_cases hs : s = ""
    · exact ⟨none, by simp [mover_last, hs]⟩
    · simp only [mover_wf, if_neg hs] at h
      have hw : pyWords s ≠ [] := by
        cases hw : pyWords s with
        | nil => rw [hw] at h; simp at h
        | cons w ws => simp
      have hsome : (pyWords s).getLast?.isSome := List.getLast?_isSome.mpr hw
      obtain ⟨w, hwd⟩ := Option.isSome_iff_exists.mp hsome
      exact ⟨some w, by simp [mover_last, hs, last_word, hwd]⟩

theorem collect_votes_ok (vis : List VoteInfo) :
    ∀ votes, votes_wf vis = true →
    ∃ v2, collect_votes vis votes = .ok v2 := by
  induction vis with
  | nil => exact fun votes _ => ⟨votes, rfl⟩
  | cons vi rest ih =>
    intro votes hv
    simp only [votes_wf, List.all_cons, Bool.and_eq_true] at hv
    obtain ⟨hvi, hrest⟩ := hv
    cases hval : vi.VoteValueName with
    | none =>
      obtain ⟨v2, hc⟩ := ih votes hrest
      exact ⟨v2, by simp [collect_votes, hval, hc]⟩
    | some v =>
      rw [hval] at hvi
      simp only [Option.isNone_some, Bool.false_or, Bool.not_eq_true'] at hvi
      have hw : pyWords vi.VotePersonName ≠ [] := by
        cases hw2 : pyWords vi.VotePersonName with
        | nil => rw [hw2] at hvi; simp at hvi
        | cons w ws => simp
      have hsome : (pyWords vi.VotePersonName).getLast?.isSome :=
        List.getLast?_isSome.mpr hw
      obtain ⟨w, hwd⟩ := Option.isSome_iff_exists.mp hsome
      obtain ⟨v2, hc⟩ := ih (dictAddName votes v w) hrest
      exact ⟨v2, by simp [collect_votes, hval, last_word, hwd, hc]⟩

theorem vote_block_ok (vis : List VoteInfo) (h : votes_wf vis = true) :
    ∃ s, vote_block vis = .ok s := by
  obtain ⟨v2, hc⟩ := collect_votes_ok vis [] h
  unfold vote_block
  simp only [hc]
  split
  · exact ⟨_, rfl⟩
  · exact ⟨_, rfl⟩

/-- The Bool firing condition, as the conjunction of the four spec
conditions (with the agenda condition as the regex actually decides it). -/
theorem event_item_fires_iff (ei : EventItem) (prev : Option EventItem) :
    event_item_fires ei prev = true ↔
      (ei.EventItemPassedFlag ≠ none
       ∧ (∀ q, prev = some q → q.EventItemPassedFlag = none)
       ∧ (∀ s, ei.EventItemAgendaNumber = some s →
           s = "" ∨ matches_agenda_regex s = true)
       ∧ pyLower ei.EventItemTitle ≠ "passed on consent agenda") := by
  unfold event_item_fires
  cases hpf : ei.EventItemPassedFlag <;>
    cases hag : ei.EventItemAgendaNumber <;>
      cases prev <;>
        (simp_all [opt_str_falsy]; try tauto)

/-- When the firing condition holds and the formatting inputs are
well-formed, the body of process_event_item succeeds with a post. -/
theorem process_fires_ok (ei : EventItem) (prev : Option EventItem)
    (hf : event_item_fires ei prev = true)
    (ha : action_wf ei.EventItemActionName = true)
    (hm : mover_wf ei.EventItemMover = true)
    (hv : votes_wf ei.EventItemVoteInfo = true) :
    ∃ p, process_event_item ei prev = .ok (some p) := by
  obtain ⟨an, han⟩ := fixup_action_tense_ok _ ha
  obtain ⟨mv, hmv⟩ := mover_last_ok _ hm
  obtain ⟨vb, hvb⟩ := vote_block_ok _ hv
  unfold process_event_item
  rw [if_pos hf]
  simp only [han, hmv, hvb]
  exact ⟨_, rfl⟩

/-- The item refuting C4: its agenda number "B\nX" starts with the
prefix class B, yet the regex rejects the embedded newline. -/
def c4_item : EventItem :=
  ⟨"g2", some "B\nX", "Some title", some "Approved", some 1, some "Pass",
    none, none, none, some "Jane Doe", []⟩

/-- The agenda condition as the claim words it: the agenda number
matches one of the prefix classes MC, CC, B, C, D. Stated from the
words of the spec, for comparison with matches_agenda_regex. -/
def spec_agenda_classes (s : String) : Bool :=
  ["MC", "CC", "B", "C", "D"].any (fun pre => pre.data.isPrefixOf s.data)

/-- C4 counterexample: for the concrete item with agenda number
"B\nX" (decision present, no previous record, title not the consent
placeholder, agenda in prefix class B per the claim wording),
process_event_item returns None: the regex anchors reject the embedded
newline, so the claimed if-and-only-if characterization fails. -/
theorem c4_counterexample :
    c4_item.EventItemPassedFlag ≠ none
    ∧ spec_agenda_classes "B\nX" = true
    ∧ c4_item.EventItemAgendaNumber = some "B\nX"
    ∧ pyLower c4_item.EventItemTitle ≠ "passed on consent agenda"
    ∧ process_event_item c4_item none = .ok none :=
  ⟨by decide, by decide, by decide, by decide, by decide⟩

/-- C4 amended: when formatting cannot raise (the action name, the
mover and every voting record with a non-null value are well-formed),
process_event_item returns a post if and only if: the decision state is
non-null; the previous record is absent or undecided; every present
agenda number is empty or accepted by the regex (begins with MC, CC, B,
C or D and has no newline other than a trailing one); and the title,
lowercased, is not "passed on consent agenda". Whenever any of these
conditions fails, it returns None. -/
theorem c4_fire_characterization (ei : EventItem) (prev : Option EventItem) :
    (action_wf ei.EventItemActionName = true →
     mover_wf ei.EventItemMover = true →
     votes_wf ei.EventItemVoteInfo = true →
      ((∃ p, process_event_item ei prev = .ok (some p)) ↔
        (ei.EventItemPassedFlag ≠ none
         ∧ (∀ q, prev = some q → q.EventItemPassedFlag = none)
         ∧ (∀ s, ei.EventItemAgendaNumber = some s →
             s = "" ∨ matches_agenda_regex s = true)
         ∧ pyLower ei.EventItemTitle ≠ "passed on consent agenda")))
    ∧ ((ei.EventItemPassedFlag = none
        ∨ (∃ q, prev = some q ∧ q.EventItemPassedFlag ≠ none)
        ∨ (∃ s, ei.EventItemAgendaNumber = some s ∧ s ≠ ""
            ∧ matches_agenda_regex s = false)
        ∨ pyLower ei.EventItemTitle = "passed on consent agenda") →
      process_event_item ei prev = .ok none) := by
  have hnone : event_item_fires ei prev = false →
      process_event_item ei prev = .ok none := by
    intro hf
    unfold process_event_item
    rw [if_neg (by rw [hf]; exact Bool.false_ne_true)]
  constructor
  · intro ha hm hv
    constructor
    · rintro ⟨p, hp⟩
      by_cases hf : event_item_fires ei prev = true
      · exact (event_item_fires_iff ei prev).mp hf
      · rw [hnone (Bool.not_eq_true _ |>.mp hf)] at hp
        exact Option.noConfusion (Except.ok.inj hp)
    · intro hcond
      exact process_fires_ok ei prev ((event_item_fires_iff ei prev).mpr hcond) ha hm hv
  · intro hneg
    apply hnone
    rw [Bool.eq_false_iff]
    intro hf
    obtain ⟨h1, h2, h3, h4⟩ := (event_item_fires_iff ei prev).mp hf
    rcases hneg with h | ⟨q, hq, hqf⟩ | ⟨s, hs, hne, hreg⟩ | ht
    · exact h1 h
    · exact hqf (h2 q hq)
    · rcases h3 s hs with h | h
      · exact hne h
      · rw [h] at hreg; exact Bool.noConfusion hreg
    · exact h4 ht

/-- The item witnessing the amended C4 at a firing input. -/
def c4_good_item : EventItem :=
  ⟨"g3", some "B-1", "Road repaving", some "Approved", some 1, some "Pass",
    none, none, none, some "Jane Doe", [⟨some "Yea", "Jane Doe"⟩]⟩

/-- Witness for C4 amended at a concrete firing item. -/
theorem c4_fire_characterization_witness :
    ∃ p, process_event_item c4_good_item none = .ok (some p) :=
  ((c4_fire_characterization c4_good_item none).1 (by decide) (by decide)
      (by decide)).mpr
    (by
      refine ⟨by decide, ?_, ?_, by decide⟩
      · intro q hq
        exact Option.noConfusion hq
      · intro s hs
        injection hs with h
        subst h
        exact Or.inr (by decide))

/-! ### fixup_minutes (lines 577-594) -/

/-- Python dict.get on the association-list model of a dict. -/
def dict_get : List (Int × String) → Int → Option String
  | [], _ => none
  | (k, v) :: rest, m => if k = m then some v else dict_get rest m

theorem dict_get_append (l1 l2 : List (Int × String)) (k : Int) :
    dict_get (l1 ++ l2) k =
      match dict_get l1 k with
      | some v => some v
      | none => dict_get l2 k := by
  induction l1 with
  | nil => simp [dict_get]
  | cons p rest ih =>
    obtain ⟨k2, v2⟩ := p
    by_cases hk : k2 = k
    · simp [dict_get, hk]
    · simp [dict_get, hk, ih]

theorem dict_get_mem (l : List (Int × String)) (k : Int) (v : String)
    (h : dict_get l k = some v) : (k, v) ∈ l := by
  induction l with
  | nil => exact absurd h (by simp [dict_get])
  | cons p rest ih =>
    obtain ⟨k2, v2⟩ := p
    by_cases hk : k2 = k
    · simp only [dict_get, if_pos hk] at h
      subst hk
      rw [List.mem_cons]
      exact Or.inl (by rw [Option.some.inj h])
    · simp only [dict_get, if_neg hk] at h
      exact List.mem_cons_of_mem _ (ih h)

/-- First pass of fixup_minutes: build the Matter-Id-to-Agenda-Number
dict. Bindings are prepended, so dict_get finds the most recent
assignment, matching the last-wins overwrite of a Python dict. -/
def fixup_pass1 : List EventItem → List (Int × String) → List (Int × String)
  | [], d => d
  | it :: rest, d =>
    match it.EventItemMatterId, it.EventItemAgendaNumber with
    | some m, some a => fixup_pass1 rest ((m, a) :: d)
    | _, _ => fixup_pass1 rest d

def matter_to_agenda_number (items : List EventItem) : List (Int × String) :=
  fixup_pass1 items []

/-- Second pass of fixup_minutes, for a single item: fill in a missing
agenda number from the dict (possibly still None when the matter has no
binding). -/
def fixup_item (d : List (Int × String)) (it : EventItem) : EventItem :=
  match it.EventItemMatterId, it.EventItemAgendaNumber with
  | some m, none => { it with EventItemAgendaNumber := dict_get d m }
  | _, _ => it

/-- def fixup_minutes(eventitems): the Python function mutates the
items in place; the embedding returns the updated list. -/
def fixup_minutes (items : List EventItem) : List EventItem :=
  items.map (fixup_item (matter_to_agenda_number items))

/-- fixup_item writes only the agenda-number field, and only when the
agenda number was null and the matter identifier non-null. -/
theorem fixup_item_frame (d : List (Int × String)) (it : EventItem) :
    (fixup_item d it).EventItemGuid = it.EventItemGuid
    ∧ (fixup_item d it).EventItemTitle = it.EventItemTitle
    ∧ (fixup_item d it).EventItemActionName = it.EventItemActionName
    ∧ (fixup_item d it).EventItemPassedFlag = it.EventItemPassedFlag
    ∧ (fixup_item d it).EventItemPassedFlagName = it.EventItemPassedFlagName
    ∧ (fixup_item d it).EventItemMatterId = it.EventItemMatterId
    ∧ (fixup_item d it).EventItemMatterFile = it.EventItemMatterFile
    ∧ (fixup_item d it).EventItemInSiteURL = it.EventItemInSiteURL
    ∧ (fixup_item d it).EventItemMover = it.EventItemMover
    ∧ (fixup_item d it).EventItemVoteInfo = it.EventItemVoteInfo
    ∧ (it.EventItemAgendaNumber ≠ none →
        (fixup_item d it).EventItemAgendaNumber = it.EventItemAgendaNumber)
    ∧ (it.EventItemMatterId = none →
        (fixup_item d it).EventItemAgendaNumber = it.EventItemAgendaNumber) := by
  cases hmid : it.EventItemMatterId <;>
    cases hag : it.EventItemAgendaNumber <;>
      simp [fixup_item, hmid, hag]

theorem fixup_pass1_eq_append (items : List EventItem) :
    ∀ d, fixup_pass1 items d = fixup_pass1 items [] ++ d := by
  induction items with
  | nil => intro d; simp [fixup_pass1]
  | cons it rest ih =>
    intro d
    cases hmid : it.EventItemMatterId with
    | none => simp only [fixup_pass1, hmid]; exact ih d
    | some m2 =>
      cases hag : it.EventItemAgendaNumber with
      | none => simp only [fixup_pass1, hmid, hag]; exact ih d
      | some a2 =>
        simp only [fixup_pass1, hmid, hag]
        rw [ih ((m2, a2) :: d), ih [(m2, a2)]]
        simp

/-- Every binding of the first pass comes from an item carrying both a
matter identifier and an agenda number. -/
theorem fixup_pass1_subset :
    ∀ (items : List EventItem) (p : Int × String), p ∈ fixup_pass1 items [] →
    ∃ it ∈ items, it.EventItemMatterId = some p.1 ∧ it.EventItemAgendaNumber = some p.2 := by
  intro items
  induction items with
  | nil =>
    intro p hp
    simp [fixup_pass1] at hp
  | cons it rest ih =>
    intro p hp
    cases hmid : it.EventItemMatterId with
    | none =>
      simp only [fixup_pass1, hmid] at hp
      obtain ⟨x, hx, h1, h2⟩ := ih p hp
      exact ⟨x, List.mem_cons_of_mem _ hx, h1, h2⟩
    | some m2 =>
      cases hag : it.EventItemAgendaNumber with
      | none =>
        simp only [fixup_pass1, hmid, hag] at hp
        obtain ⟨x, hx, h1, h2⟩ := ih p hp
        exact ⟨x, List.mem_cons_of_mem _ hx, h1, h2⟩
      | some a2 =>
        simp only [fixup_pass1, hmid, hag] at hp
        rw [fixup_pass1_eq_append rest [(m2, a2)]] at hp
        rcases List.mem_append.mp hp with h | h
        · obtain ⟨x, hx, h1, h2⟩ := ih p h
          exact ⟨x, List.mem_cons_of_mem _ hx, h1, h2⟩
        · rw [List.mem_singleton] at h
          subst h
          exact ⟨it, List.mem_cons_self _ _, hmid, hag⟩

/-- If some item carries matter m together with an agenda number, the
first pass dict has a binding for m. -/
theorem fixup_pass1_key :
    ∀ (items : List EventItem) (m : Int) (a : String),
    (∃ it ∈ items, it.EventItemMatterId = some m ∧ it.EventItemAgendaNumber = some a) →
    ∃ b, dict_get (fixup_pass1 items []) m = some b := by
  intro items
  induction items with
  | nil =>
    rintro m a ⟨it, hmem, _⟩
    cases hmem
  | cons it rest ih =>
    rintro m a ⟨x, hx, hxm, hxa⟩
    cases hmid : it.EventItemMatterId with
    | none =>
      simp only [fixup_pass1, hmid]
      rcases List.mem_cons.mp hx with h | h
      · subst h; rw [hmid] at hxm; exact Option.noConfusion hxm
      · exact ih m a ⟨x, h, hxm, hxa⟩
    | some m2 =>
      cases hag : it.EventItemAgendaNumber with
      | none =>
        simp only [fixup_pass1, hmid, hag]
        rcases List.mem_cons.mp hx with h | h
        · subst h; rw [hag] at hxa; exact Option.noConfusion hxa
        · exact ih m a ⟨x, h, hxm, hxa⟩
      | some a2 =>
        simp only [fixup_pass1, hmid, hag]
        rw [fixup_pass1_eq_append rest [(m2, a2)], dict_get_append]
        rcases List.mem_cons.mp hx with h | h
        · subst h
          rw [hmid] at hxm
          have hm2 : m2 = m := Option.some.inj hxm
          subst hm2
          cases hr : dict_get (fixup_pass1 rest []) m2 with
          | some b => exact ⟨b, rfl⟩
          | none => exact ⟨a2, by simp [dict_get]⟩
        · obtain ⟨b, hb⟩ := ih m a ⟨x, h, hxm, hxa⟩
          rw [hb]
          exact ⟨b, rfl⟩

/-- When every item for matter m carries either no agenda number or the
agenda number a, and at least one carries a, the dict maps m to a. -/
theorem matter_map_lookup (items : List EventItem) (m : Int) (a : String)
    (hall : ∀ it ∈ items, it.EventItemMatterId = some m →
      it.EventItemAgendaNumber = none ∨ it.EventItemAgendaNumber = some a)
    (hex : ∃ it ∈ items, it.EventItemMatterId = some m ∧ it.EventItemAgendaNumber = some a) :
    dict_get (matter_to_agenda_number items) m = some a := by
  obtain ⟨b, hb⟩ := fixup_pass1_key items m a hex
  obtain ⟨x, hx, hxm, hxa⟩ := fixup_pass1_subset items (m, b) (dict_get_mem _ _ _ hb)
  rcases hall x hx hxm with h | h
  · rw [h] at hxa; exact Option.noConfusion hxa
  · rw [h] at hxa
    rw [matter_to_agenda_number, hb, Option.some.inj hxa]

/-- The pair of items of the concrete backfill example. -/
def c5_pair1 : EventItem :=
  ⟨"p1", some "B-1", "Item one", none, none, none, some 5, none, none, none, []⟩

def c5_pair2 : EventItem :=
  ⟨"p2", none, "Item two", none, none, none, some 5, none, none, none, []⟩

/-- C5 amended: fixup_minutes backfills a null agenda number from an
item sharing the matter identifier, but items that already carry an
agenda number keep it: when the items for matter m carry at most one
distinct non-null agenda number a (and at least one carries it), every
item for m ends up with a; in particular the concrete pair
[(matter 5, agenda B-1), (matter 5, agenda null)] ends with both items
carrying B-1. When items for one matter carry conflicting non-null
agenda numbers, they keep their own values (see the counterexample). -/
theorem c5_backfill_amended :
    (∀ (items : List EventItem) (m : Int) (a : String),
      (∀ it ∈ items, it.EventItemMatterId = some m →
        it.EventItemAgendaNumber = none ∨ it.EventItemAgendaNumber = some a) →
      (∃ it ∈ items, it.EventItemMatterId = some m ∧ it.EventItemAgendaNumber = some a) →
      ∀ it2 ∈ fixup_minutes items, it2.EventItemMatterId = some m →
        it2.EventItemAgendaNumber = some a)
    ∧ (fixup_minutes [c5_pair1, c5_pair2]).map (fun it => it.EventItemAgendaNumber)
        = [some "B-1", some "B-1"] := by
  constructor
  · intro items m a hall hex it2 hmem hmat
    obtain ⟨it, hit, hfe⟩ := List.mem_map.mp hmem
    cases hmid : it.EventItemMatterId with
    | none =>
      simp only [fixup_item, hmid] at hfe
      subst hfe
      rw [hmat] at hmid
      exact Option.noConfusion hmid
    | some m2 =>
      cases hag : it.EventItemAgendaNumber with
      | none =>
        simp only [fixup_item, hmid, hag] at hfe
        subst hfe
        simp only [hmid] at hmat
        have hm2 : m2 = m := Option.some.inj hmat
        subst hm2
        show dict_get (matter_to_agenda_number items) m2 = some a
        exact matter_map_lookup items m2 a hall hex
      | some x =>
        simp only [fixup_item, hmid, hag] at hfe
        subst hfe
        rcases hall it hit hmat with h | h
        · rw [hag] at h; exact Option.noConfusion h
        · exact h
  · decide

/-- Witness for the general part of the amended C5 at the concrete pair. -/
theorem c5_backfill_amended_witness :
    ∀ it2 ∈ fixup_minutes [c5_pair1, c5_pair2], it2.EventItemMatterId = some 5 →
      it2.EventItemAgendaNumber = some "B-1" :=
  c5_backfill_amended.1 [c5_pair1, c5_pair2] 5 "B-1"
    (by decide)
    ⟨c5_pair1, by decide⟩

/-- The conflicting pair refuting C5: two items share matter 5 but
carry the different agenda numbers B-1 and B-2. -/
def c5_conflict1 : EventItem :=
  ⟨"q1", some "B-1", "Item one", none, none, none, some 5, none, none, none, []⟩

def c5_conflict2 : EventItem :=
  ⟨"q2", some "B-2", "Item two", none, none, none, some 5, none, none, none, []⟩

/-- C5 counterexample: after fixup_minutes, the two items sharing
matter identifier 5 still carry the distinct agenda numbers "B-1" and
"B-2" - the claimed invariant that all items of one matter end with
the same agenda number fails on items that already carry different
non-null agenda numbers. -/
theorem c5_counterexample :
    ([c5_conflict1, c5_conflict2].map (fun it => it.EventItemMatterId)
        = [some 5, some 5])
    ∧ ((fixup_minutes [c5_conflict1, c5_conflict2]).map
        (fun it => it.EventItemAgendaNumber) = [some "B-1", some "B-2"])
    ∧ ("B-1" : String) ≠ "B-2" :=
  ⟨by decide, by decide, by decide⟩

/-- C10: fixup_minutes only ever writes the agenda-number field, and
only on items whose agenda number is null and whose matter identifier
is non-null: the list keeps its length, every other field of every item
is unchanged, an item that already carries an agenda number keeps it
(even when another item with the same matter identifier carries a
different one - see the counterexample items of C5), and an item with
no matter identifier is unchanged. -/
theorem c10_fixup_frame (items : List EventItem) :
    (fixup_minutes items).length = items.length
    ∧ ∀ (i : Nat) (h1 : i < items.length) (h2 : i < (fixup_minutes items).length),
      ((fixup_minutes items).get ⟨i, h2⟩).EventItemGuid
          = (items.get ⟨i, h1⟩).EventItemGuid
      ∧ ((fixup_minutes items).get ⟨i, h2⟩).EventItemTitle
          = (items.get ⟨i, h1⟩).EventItemTitle
      ∧ ((fixup_minutes items).get ⟨i, h2⟩).EventItemActionName
          = (items.get ⟨i, h1⟩).EventItemActionName
      ∧ ((fixup_minutes items).get ⟨i, h2⟩).EventItemPassedFlag
          = (items.get ⟨i, h1⟩).EventItemPassedFlag
      ∧ ((fixup_minutes items).get ⟨i, h2⟩).EventItemPassedFlagName
          = (items.get ⟨i, h1⟩).EventItemPassedFlagName
      ∧ ((fixup_minutes items).get ⟨i, h2⟩).EventItemMatterId
          = (items.get ⟨i, h1⟩).EventItemMatterId
      ∧ ((fixup_minutes items).get ⟨i, h2⟩).EventItemMatterFile
          = (items.get ⟨i, h1⟩).EventItemMatterFile
      ∧ ((fixup_minutes items).get ⟨i, h2⟩).EventItemInSiteURL
          = (items.get ⟨i, h1⟩).EventItemInSiteURL
      ∧ ((fixup_minutes items).get ⟨i, h2⟩).EventItemMover
          = (items.get ⟨i, h1⟩).EventItemMover
      ∧ ((fixup_minutes items).get ⟨i, h2⟩).EventItemVoteInfo
          = (items.get ⟨i, h1⟩).EventItemVoteInfo
      ∧ ((items.get ⟨i, h1⟩).EventItemAgendaNumber ≠ none →
          ((fixup_minutes items).get ⟨i, h2⟩).EventItemAgendaNumber
            = (items.get ⟨i, h1⟩).EventItemAgendaNumber)
      ∧ ((items.get ⟨i, h1⟩).EventItemMatterId = none →
          ((fixup_minutes items).get ⟨i, h2⟩).EventItemAgendaNumber
            = (items.get ⟨i, h1⟩).EventItemAgendaNumber) := by
  refine ⟨by simp [fixup_minutes], ?_⟩
  intro i h1 h2
  have hget : (fixup_minutes items).get ⟨i, h2⟩
      = fixup_item (matter_to_agenda_number items) (items.get ⟨i, h1⟩) := by
    simp [fixup_minutes]
  rw [hget]
  exact fixup_item_frame (matter_to_agenda_number items) (items.get ⟨i, h1⟩)

/-- A concrete item whose agenda number is already present. -/
def sample_item : EventItem :=
  ⟨"g0", some "B-1", "Title", some "Approved", some 1, some "Pass",
    some 5, none, none, some "Jane Doe", []⟩

/-- Witness for C10 at a concrete one-item list. -/
theorem c10_fixup_frame_witness :
    (fixup_minutes [sample_item]).length = [sample_item].length
    ∧ ((fixup_minutes [sample_item]).get ⟨0, by decide⟩).EventItemGuid
        = ([sample_item].get ⟨0, by decide⟩).EventItemGuid
    ∧ ((fixup_minutes [sample_item]).get ⟨0, by decide⟩).EventItemAgendaNumber
        = ([sample_item].get ⟨0, by decide⟩).EventItemAgendaNumber :=
  ⟨(c10_fixup_frame [sample_item]).1,
   ((c10_fixup_frame [sample_item]).2 0 (by decide) (by decide)).1,
   ((c10_fixup_frame [sample_item]).2 0 (by decide) (by decide)).2.2.2.2.2.2.2.2.2.2.1
     (by decide)⟩

/-! ### send_posts (lines 671-684) and the state update in main (807-818) -/

/-- A posting client: send_tweet takes the message and the optional
previous reply token for this destination and returns the new token or
raises. Tokens are modelled as strings. -/
abbrev PostingClient := SocialMediaPost → Option String → Except PyErr String

/-- The loop of send_posts: destinations in fixed configured order,
each called with the pre-cycle token looked up by platform name; the
new token dict is only built locally, so a raise loses it whole. -/
def send_posts_loop (message : SocialMediaPost) :
    List (String × PostingClient) → List (String × String) → List (String × String)
    → Except PyErr (List (String × String))
  | [], _, new => .ok new
  | (platform_name, client) :: rest, prevIds, new =>
    match client message (prevIds.lookup platform_name) with
    | .error e => .error e
    | .ok tok => send_posts_loop message rest prevIds (new ++ [(platform_name, tok)])

/-- def send_posts(message, posting_clients, previous_post_ids): a None
previous dict defaults to empty. -/
def send_posts (message : SocialMediaPost)
    (posting_clients : List (String × PostingClient))
    (previous_post_ids : Option (List (String × String))) :
    Except PyErr (List (String × String)) :=
  send_posts_loop message posting_clients (previous_post_ids.getD []) []

/-- The effect of one item publish on state["previous_post_ids"] in
main (lines 807-814): the assignment happens only when send_posts
returns; the cycle-level except leaves the previous value in place when
it raises. -/
def main_update_post_ids (output : SocialMediaPost)
    (posting_clients : List (String × PostingClient))
    (previous_post_ids : Option (List (String × String))) :
    Option (List (String × String)) :=
  match send_posts output posting_clients previous_post_ids with
  | .ok d => some d
  | .error _ => previous_post_ids

/-- A client that always succeeds with token "ta". -/
def c6_client_ok : PostingClient := fun _ _ => .ok "ta"

/-- A client whose publish always raises. -/
def c6_client_fail : PostingClient := fun _ _ => .error (.runtimeError "publish failed")

/-- C6 counterexample: destination "a" publishes successfully (its
send_tweet returns the fresh token "ta"), then destination "b" raises;
the persisted per-destination tokens remain the pre-cycle values, so
the token produced by the earlier successful publish is NOT kept - the
claimed independent per-destination update does not happen. -/
theorem c6_counterexample :
    main_update_post_ids ⟨[]⟩ [("a", c6_client_ok), ("b", c6_client_fail)]
        (some [("a", "old_a"), ("b", "old_b")])
      = some [("a", "old_a"), ("b", "old_b")]
    ∧ c6_client_ok ⟨[]⟩ (some "old_a") = .ok "ta"
    ∧ ([("a", "old_a"), ("b", "old_b")] : List (String × String)).lookup "a" ≠ some "ta" :=
  ⟨rfl, rfl, by decide⟩

/-- send_posts_loop succeeds with d exactly when, entry by entry, each
configured destination's publish (against its pre-cycle token)
succeeds and contributes its token, appended after the accumulator. -/
theorem send_posts_loop_iff (message : SocialMediaPost) :
    ∀ (clients : List (String × PostingClient)) (prevIds : List (String × String))
      (acc : List (String × String)) (d : List (String × String)),
    send_posts_loop message clients prevIds acc = .ok d ↔
      ∃ new, d = acc ++ new ∧
        List.Forall₂ (fun (c : String × PostingClient) (e : String × String) =>
          e.1 = c.1 ∧ c.2 message (prevIds.lookup c.1) = .ok e.2) clients new := by
  intro clients
  induction clients with
  | nil =>
    intro prevIds acc d
    constructor
    · intro h
      refine ⟨[], ?_, List.Forall₂.nil⟩
      simpa [send_posts_loop] using (Except.ok.inj h).symm
    · rintro ⟨new, hd, hfa⟩
      cases hfa
      simp only [List.append_nil] at hd
      rw [hd]
      rfl
  | cons c rest ih =>
    intro prevIds acc d
    obtain ⟨platform_name, client⟩ := c
    constructor
    · intro h
      cases hcall : client message (prevIds.lookup platform_name) with
      | error e =>
        rw [show send_posts_loop message ((platform_name, client) :: rest) prevIds acc
            = .error e by simp [send_posts_loop, hcall]] at h
        exact Except.noConfusion h
      | ok tok =>
        rw [show send_posts_loop message ((platform_name, client) :: rest) prevIds acc
            = send_posts_loop message rest prevIds (acc ++ [(platform_name, tok)])
            by simp [send_posts_loop, hcall]] at h
        obtain ⟨new, hd, hfa⟩ := (ih prevIds (acc ++ [(platform_name, tok)]) d).mp h
        refine ⟨(platform_name, tok) :: new, by simpa using hd,
          List.Forall₂.cons ⟨rfl, hcall⟩ hfa⟩
    · rintro ⟨new, hd, hfa⟩
      cases hfa with
      | cons hhead htail =>
        rename_i e new2
        obtain ⟨he1, he2⟩ := hhead
        obtain ⟨e1, e2⟩ := e
        dsimp only at he1 he2
        subst he1
        have hstep : send_posts_loop message ((e1, client) :: rest) prevIds acc
            = send_posts_loop message rest prevIds (acc ++ [(e1, e2)]) := by
          simp [send_posts_loop, he2]
        rw [hstep]
        apply (ih prevIds (acc ++ [(e1, e2)]) d).mpr
        exact ⟨new2, by simpa using hd, htail⟩

/-- C6 amended: the reply tokens are updated in the persisted state
only when every configured destination's publish for the item
succeeds: send_posts returns a full token dict (one entry per
destination, in order, each holding the token returned by that
destination's publish against its pre-cycle token) exactly when all
publishes succeed; when any destination raises, the tokens already
produced by earlier destinations in that call are discarded and the
persisted per-destination tokens stay what they were before the item. -/
theorem c6_tokens_only_on_full_success (message : SocialMediaPost)
    (posting_clients : List (String × PostingClient))
    (previous_post_ids : Option (List (String × String))) :
    (∀ d, send_posts message posting_clients previous_post_ids = .ok d ↔
      List.Forall₂ (fun (c : String × PostingClient) (e : String × String) =>
        e.1 = c.1 ∧ c.2 message ((previous_post_ids.getD []).lookup c.1) = .ok e.2)
        posting_clients d)
    ∧ (∀ e, send_posts message posting_clients previous_post_ids = .error e →
        main_update_post_ids message posting_clients previous_post_ids
          = previous_post_ids) := by
  constructor
  · intro d
    rw [send_posts,
      send_posts_loop_iff message posting_clients (previous_post_ids.getD []) [] d]
    constructor
    · rintro ⟨new, hd, hfa⟩
      rw [hd]
      simpa using hfa
    · intro hfa
      exact ⟨d, by simp, hfa⟩
  · intro e he
    unfold main_update_post_ids
    rw [he]

/-- Witness for C6 amended: with one succeeding and one failing client
the persisted tokens are unchanged; with the failing destination
removed, the iff characterizes the returned dict. -/
theorem c6_tokens_only_on_full_success_witness :
    main_update_post_ids ⟨[]⟩ [("a", c6_client_ok), ("b", c6_client_fail)]
        (some [("a", "old_a")])
      = some [("a", "old_a")]
    ∧ send_posts ⟨[]⟩ [("a", c6_client_ok)] (some [("a", "old_a")])
      = .ok [("a", "ta")] :=
  ⟨(c6_tokens_only_on_full_success ⟨[]⟩ [("a", c6_client_ok), ("b", c6_client_fail)]
      (some [("a", "old_a")])).2 (.runtimeError "publish failed") rfl,
   (c6_tokens_only_on_full_success ⟨[]⟩ [("a", c6_client_ok)]
      (some [("a", "old_a")])).1 [("a", "ta")] |>.mpr
     (List.Forall₂.cons ⟨rfl, rfl⟩ List.Forall₂.nil)⟩

end A2CouncilBot
